import Mathlib

/-!
Shallow embedding of the staking-pool canister, translated from
`src/staking_pool_backend/src/lib.rs` (the self-contained variant of the
backend; the repository also carries a modular historical variant in
`state.rs` / `ledger.rs` / `types.rs`).

Modelling conventions:
* `u64` values are `Nat`; every unchecked Rust arithmetic op (`+`, `-`, `*`,
  `+=`, `-=`) is modelled with an explicit wrap modulo `2^64`
  (`wrap_add` / `wrap_sub` / `wrap_mul`), matching release-profile wrapping;
  `saturating_sub` becomes plain `Nat` subtraction, which saturates at zero.
* `Principal` is an abstract identity, modelled as `Nat`;
  `Principal::anonymous()` is the distinguished value `anonymous`.
* `HashMap<Principal, Vec<Stake>>` is an association list
  `List (Principal × List Stake)`; lookups and in-place updates use
  first-matching-entry semantics, which coincides with the hash map on
  states whose keys are distinct (the only states the map can represent).
* External calls (ledger balance query, ledger transfer, raw_rand) are
  suspension points; their responses enter the model as explicit oracle
  arguments (`Option Nat` for a balance reply where `none` is a transport
  failure, `Option (Except TransferError Nat)` for a transfer reply).
* Rust `format!` result strings are modelled by the tuple of interpolated
  values (e.g. `WithdrawOk`), since only those values carry information.
* The `DefaultHasher` subaccount derivation is modelled as the injective
  pairing `Nat.pair user nonce`; no property below depends on the hash.
* `reward_pool` computes its shares with `f64` arithmetic
  (`lib.rs` lines 429–436); IEEE-754 semantics are outside this embedding,
  so `reward_pool` is not modelled here.
-/

namespace StakingPoolModel

abbrev Principal := Nat

def anonymous : Principal := 0

-- Constants from lib.rs
def TRANSFER_FEE : Nat := 10000
def MIN_DEPOSIT : Nat := 100000
def MAX_DEPOSIT : Nat := 100000000000
def LOCK_90_DAYS : Nat := 90 * 24 * 60 * 60
def LOCK_180_DAYS : Nat := 180 * 24 * 60 * 60
def LOCK_360_DAYS : Nat := 360 * 24 * 60 * 60

-- u64 wrapping arithmetic
def U64_LIMIT : Nat := 2 ^ 64

def wrap_add (a b : Nat) : Nat := (a + b) % U64_LIMIT

def wrap_sub (a b : Nat) : Nat := (a + U64_LIMIT - b % U64_LIMIT) % U64_LIMIT

def wrap_mul (a b : Nat) : Nat := (a * b) % U64_LIMIT

inductive LockPeriod
  | Days90
  | Days180
  | Days360
deriving DecidableEq, Repr

def LockPeriod.to_seconds : LockPeriod → Nat
  | .Days90 => LOCK_90_DAYS
  | .Days180 => LOCK_180_DAYS
  | .Days360 => LOCK_360_DAYS

structure Stake where
  id : Nat
  amount : Nat
  lock_period : LockPeriod
  deposit_time : Nat
  unlock_time : Nat
  subaccount : Nat
  is_active : Bool
deriving DecidableEq, Repr

/-- Ledger-side transfer failure (`ic_ledger_types::TransferError`); the
variants the code constructs or forwards. `Rejected` stands for any other
ledger-reported rejection passed through unchanged. -/
inductive TransferError
  | InsufficientFundsBal (balance : Nat)
  | TxTooOld (allowed_window_nanos : Nat)
  | Rejected
deriving DecidableEq, Repr

inductive StakingError
  | InsufficientFunds
  | InvalidAmount
  | TransferFailed (e : TransferError)
  | StakeNotFound
  | StakeStillLocked
  | StakeAlreadyWithdrawn
  | Unauthorized
  | InvalidLockPeriod
  | DepositTimeout
  | SystemError
  | InvalidReceiver
deriving DecidableEq, Repr

deriving instance DecidableEq for Except

structure StakingPool where
  stakes : List (Principal × List Stake)
  user_rewards : List (Principal × Nat)
  total_pool_balance : Nat
  total_rewards_distributed : Nat
  total_slashed : Nat
  next_stake_id : Nat
  reward_pool_balance : Nat
deriving DecidableEq, Repr

def emptyPool : StakingPool :=
  { stakes := [], user_rewards := [], total_pool_balance := 0,
    total_rewards_distributed := 0, total_slashed := 0,
    next_stake_id := 0, reward_pool_balance := 0 }

-- `self.stakes.get(&user)`; first-matching-entry semantics over the
-- association list
def stakes_lookup : List (Principal × List Stake) → Principal → Option (List Stake)
  | [], _ => none
  | e :: rest, user => if e.1 = user then some e.2 else stakes_lookup rest user

def lookupStakes (pool : StakingPool) (user : Principal) : Option (List Stake) :=
  stakes_lookup pool.stakes user

-- `.iter().enumerate().find(|(_, stake)| stake.id == stake_id)`
def find_stake_aux : List Stake → Nat → Nat → Option (Nat × Stake)
  | [], _, _ => none
  | s :: rest, sid, k =>
    if s.id = sid then some (k, s) else find_stake_aux rest sid (k + 1)

def find_stake_by_id (pool : StakingPool) (user : Principal) (stake_id : Nat) :
    Option (Nat × Stake) :=
  match lookupStakes pool user with
  | none => none
  | some l => find_stake_aux l stake_id 0

-- index-based in-place update used by `update_stake`
def modify_at : List Stake → Nat → (Stake → Stake) → List Stake
  | [], _, _ => []
  | s :: rest, 0, f => f s :: rest
  | s :: rest, n + 1, f => s :: modify_at rest n f

def update_stake (pool : StakingPool) (user : Principal) (stake_index : Nat)
    (updater : Stake → Stake) : StakingPool :=
  { pool with
    stakes := pool.stakes.map (fun e =>
      if e.1 == user then (e.1, modify_at e.2 stake_index updater) else e) }

def add_stake (pool : StakingPool) (user : Principal) (stake : Stake) : StakingPool :=
  let stake' := { stake with id := pool.next_stake_id }
  let stakes' :=
    if pool.stakes.any (fun e => e.1 == user) then
      pool.stakes.map (fun e => if e.1 == user then (e.1, e.2 ++ [stake']) else e)
    else
      pool.stakes ++ [(user, [stake'])]
  { pool with
    stakes := stakes',
    next_stake_id := wrap_add pool.next_stake_id 1,
    total_pool_balance := wrap_add pool.total_pool_balance stake'.amount }

def get_all_active_stakes (pool : StakingPool) : List (Principal × Stake) :=
  (pool.stakes.map (fun e =>
    (e.2.filter (·.is_active)).map (fun s => (e.1, s)))).flatten

def get_total_staked_amount (pool : StakingPool) : Nat :=
  ((get_all_active_stakes pool).map (fun e => e.2.amount)).foldl wrap_add 0

-- `generate_subaccount` (DefaultHasher of (user, nonce)); modelled as an
-- injective deterministic pairing of its two inputs.
def generate_subaccount (user : Principal) (nonce : Nat) : Nat :=
  Nat.pair user nonce

/-- `get_balance` in lib.rs: a transport failure of the `account_balance`
call is collapsed to a balance of `0`. -/
def get_balance (reply : Option Nat) : Nat :=
  match reply with
  | some e8s => e8s
  | none => 0

/-- `transfer_icp` in lib.rs: amounts at or below the fee are rejected
before the ledger call; a transport failure of the call becomes
`TxTooOld`; otherwise the ledger's own result is returned. -/
def transfer_icp (amount : Nat) (reply : Option (Except TransferError Nat)) :
    Except TransferError Nat :=
  if amount ≤ TRANSFER_FEE then
    .error (.InsufficientFundsBal amount)
  else
    match reply with
    | none => .error (.TxTooOld 0)
    | some r => r

structure DepositOk where
  stake_id : Nat
  amount : Nat
  unlock_time : Nat
deriving DecidableEq, Repr

structure ConfirmOk where
  stake_id : Nat
  amount : Nat
  unlock_time : Nat
deriving DecidableEq, Repr

structure WithdrawOk where
  transfer_amount : Nat
  stake_id : Nat
  block_index : Nat
deriving DecidableEq, Repr

structure SlashOk where
  total_slashed : Nat
  successful_slashes : Nat
  transfer_amount : Nat
  block_index : Nat
deriving DecidableEq, Repr

/-- `deposit` in lib.rs: validates the amount bounds, derives a
subaccount from the awaited random nonce, and immediately inserts the
stake with `is_active: true`.  Note it consults no balance oracle. -/
def deposit (pool : StakingPool) (user : Principal) (args_amount : Nat)
    (args_lock : LockPeriod) (current_time nonce : Nat) :
    StakingPool × Except StakingError (DepositOk × Nat) :=
  if args_amount < MIN_DEPOSIT then (pool, .error .InvalidAmount)
  else if MAX_DEPOSIT < args_amount then (pool, .error .InvalidAmount)
  else
    let subaccount := generate_subaccount user nonce
    let unlock_time := wrap_add current_time args_lock.to_seconds
    let stake : Stake :=
      { id := 0, amount := args_amount, lock_period := args_lock,
        deposit_time := current_time, unlock_time := unlock_time,
        subaccount := subaccount, is_active := true }
    let stake_id := pool.next_stake_id
    (add_stake pool user stake,
     .ok ({ stake_id := stake_id, amount := args_amount,
            unlock_time := unlock_time }, stake_id))

/-- `confirm_deposit` in lib.rs: finds the stake, rejects inactive stakes
with `StakeAlreadyWithdrawn`, queries the subaccount balance and rejects
a balance below the recorded amount; it never mutates the pool. -/
def confirm_deposit (pool : StakingPool) (user : Principal) (stake_id : Nat)
    (balanceReply : Option Nat) : StakingPool × Except StakingError ConfirmOk :=
  match find_stake_by_id pool user stake_id with
  | none => (pool, .error .StakeNotFound)
  | some (_, stake) =>
    if !stake.is_active then (pool, .error .StakeAlreadyWithdrawn)
    else if get_balance balanceReply < stake.amount then
      (pool, .error .InsufficientFunds)
    else
      (pool, .ok { stake_id := stake_id, amount := stake.amount,
                   unlock_time := stake.unlock_time })

/-- `withdraw` in lib.rs. -/
def withdraw (pool : StakingPool) (user : Principal) (stake_id current_time : Nat)
    (balanceReply : Option Nat) (transferReply : Option (Except TransferError Nat)) :
    StakingPool × Except StakingError WithdrawOk :=
  match find_stake_by_id pool user stake_id with
  | none => (pool, .error .StakeNotFound)
  | some (stake_index, stake) =>
    if !stake.is_active then (pool, .error .StakeAlreadyWithdrawn)
    else if current_time < stake.unlock_time then (pool, .error .StakeStillLocked)
    else if get_balance balanceReply < stake.amount then
      (pool, .error .InsufficientFunds)
    else
      let transfer_amount := stake.amount - TRANSFER_FEE
      match transfer_icp transfer_amount transferReply with
      | .ok block_index =>
        let pool' := update_stake pool user stake_index
          (fun s => { s with is_active := false })
        ({ pool' with
             total_pool_balance := wrap_sub pool'.total_pool_balance stake.amount },
         .ok { transfer_amount := transfer_amount, stake_id := stake_id,
               block_index := block_index })
      | .error e => (pool, .error (.TransferFailed e))

-- slash_pool's in-place mutation: `user_stakes.iter_mut().find(|s| s.id == stake.id)`
-- followed by `amount -= actual_slash` and the below-minimum deactivation.
def slash_user_list : List Stake → Nat → Nat → Option (List Stake)
  | [], _, _ => none
  | s :: rest, sid, actual =>
    if s.id = sid then
      let newAmt := wrap_sub s.amount actual
      some ({ s with
                amount := newAmt,
                is_active := if newAmt < MIN_DEPOSIT then false else s.is_active }
            :: rest)
    else
      (slash_user_list rest sid actual).map (s :: ·)

-- `state_ref.stakes.get_mut(user_principal)` then the stake update; `none`
-- when either the user entry or the stake id is absent (no mutation then).
def slash_pool_entry : List (Principal × List Stake) → Principal → Nat → Nat →
    Option (List (Principal × List Stake))
  | [], _, _, _ => none
  | e :: rest, u, sid, actual =>
    if e.1 = u then
      match slash_user_list e.2 sid actual with
      | some l => some ((e.1, l) :: rest)
      | none => none
    else
      (slash_pool_entry rest u sid actual).map (e :: ·)

/-- One iteration of slash_pool's distribution loop (lib.rs lines 489-511);
the accumulator carries (total_slashed, successful_slashes). -/
def slash_step (amount total_staked : Nat) (acc : StakingPool × Nat × Nat)
    (entry : Principal × Stake) : StakingPool × Nat × Nat :=
  let pool := acc.1
  let slash_amount := wrap_mul entry.2.amount amount / total_staked
  let actual_slash := min slash_amount entry.2.amount
  if 0 < actual_slash then
    match slash_pool_entry pool.stakes entry.1 entry.2.id actual_slash with
    | some newStakes =>
      ({ pool with
           stakes := newStakes,
           total_pool_balance := wrap_sub pool.total_pool_balance actual_slash },
       wrap_add acc.2.1 actual_slash, acc.2.2 + 1)
    | none => acc
  else acc

/-- `slash_pool` in lib.rs.  The `caller` argument records the request's
caller identity; the source never reads it (there is no authorization
check), which the definition mirrors by leaving it unused. -/
def slash_pool (pool : StakingPool) (caller : Principal) (amount : Nat)
    (receiver : Principal) (transferReply : Option (Except TransferError Nat)) :
    StakingPool × Except StakingError SlashOk :=
  if amount = 0 then (pool, .error .InvalidAmount)
  else if receiver = anonymous then (pool, .error .InvalidReceiver)
  else
    let total_staked := get_total_staked_amount pool
    if total_staked = 0 then (pool, .error .InvalidAmount)
    else
      let all_stakes := get_all_active_stakes pool
      let res := all_stakes.foldl (slash_step amount total_staked) (pool, 0, 0)
      let pool' := res.1
      let total_slashed := res.2.1
      let successful_slashes := res.2.2
      if TRANSFER_FEE < total_slashed then
        let transfer_amount := total_slashed - TRANSFER_FEE
        match transfer_icp transfer_amount transferReply with
        | .ok block_index =>
          ({ pool' with
               total_slashed := wrap_add pool'.total_slashed total_slashed },
           .ok { total_slashed := total_slashed,
                 successful_slashes := successful_slashes,
                 transfer_amount := transfer_amount,
                 block_index := block_index })
        | .error e => (pool', .error (.TransferFailed e))
      else (pool', .error .InvalidAmount)

-- Observation helpers over a pool
def found_amount : Option (Nat × Stake) → Nat
  | some p => p.2.amount
  | none => 0

def stake_amount (pool : StakingPool) (user : Principal) (stake_id : Nat) : Nat :=
  found_amount (find_stake_by_id pool user stake_id)

-- the same observation, phrased over a bare stakes map
def stakes_amount (stakes : List (Principal × List Stake)) (user stake_id : Nat) : Nat :=
  found_amount (match stakes_lookup stakes user with
    | none => none
    | some l => find_stake_aux l stake_id 0)

def stake_active (pool : StakingPool) (user : Principal) (stake_id : Nat) :
    Option Bool :=
  (find_stake_by_id pool user stake_id).map (fun p => p.2.is_active)

-- Concrete pools used in the evaluations below
def stake150 : Stake :=
  { id := 0, amount := 150000, lock_period := .Days90, deposit_time := 0,
    unlock_time := LOCK_90_DAYS, subaccount := 0, is_active := true }

def pool150 : StakingPool :=
  { stakes := [(7, [stake150])], user_rewards := [],
    total_pool_balance := 150000, total_rewards_distributed := 0,
    total_slashed := 0, next_stake_id := 1, reward_pool_balance := 0 }

def stakeMax : Stake :=
  { id := 0, amount := MAX_DEPOSIT, lock_period := .Days360, deposit_time := 0,
    unlock_time := LOCK_360_DAYS, subaccount := 0, is_active := true }

def poolMax : StakingPool :=
  { stakes := [(7, [stakeMax])], user_rewards := [],
    total_pool_balance := MAX_DEPOSIT, total_rewards_distributed := 0,
    total_slashed := 0, next_stake_id := 1, reward_pool_balance := 0 }

def pool_after_deposit : StakingPool :=
  (deposit emptyPool 7 100000 LockPeriod.Days90 1000 42).1

/-- C2: the round-trip invariant "sum of active amounts = cached
`total_pool_balance`" is broken by `slash_pool`: slashing the single
150000-e8s stake by 100000 leaves a 50000-e8s residual; the stake is
deactivated (residual below `MIN_DEPOSIT`) but `total_pool_balance` is
only reduced by the slashed 100000, so the active sum is 0 while the
cached aggregate is 50000. -/
theorem slash_pool_breaks_cache_invariant :
    get_total_staked_amount (slash_pool pool150 9 100000 3 (some (Except.ok 1))).1 = 0 ∧
    (slash_pool pool150 9 100000 3 (some (Except.ok 1))).1.total_pool_balance = 50000 ∧
    get_total_staked_amount (slash_pool pool150 9 100000 3 (some (Except.ok 1))).1 ≠
      (slash_pool pool150 9 100000 3 (some (Except.ok 1))).1.total_pool_balance := by
  decide

/-- C3: `slash_pool` performs no authorization check: for every caller
identity, the call proceeds (here it succeeds against `pool150`) and in
particular never returns `Unauthorized`. -/
theorem slash_pool_lacks_authorization (caller : Principal) :
    (slash_pool pool150 caller 100000 3 (some (Except.ok 1))).2 =
      Except.ok { total_slashed := 100000, successful_slashes := 1,
                  transfer_amount := 90000, block_index := 1 } ∧
    (slash_pool pool150 caller 100000 3 (some (Except.ok 1))).2 ≠
      Except.error StakingError.Unauthorized := by
  have h1 : (slash_pool pool150 caller 100000 3 (some (Except.ok 1))).2 =
      Except.ok { total_slashed := 100000, successful_slashes := 1,
                  transfer_amount := 90000, block_index := 1 } := rfl
  refine ⟨h1, ?_⟩
  rw [h1]
  decide

/-- C4: a transport failure of the balance query is collapsed to a zero
balance by `get_balance`, and `confirm_deposit` / `withdraw` then report
`InsufficientFunds` (there is no ledger-unavailable error at all). -/
theorem balance_transport_error_becomes_insufficient_funds :
    get_balance none = 0 ∧
    (confirm_deposit pool150 7 0 none).2 = Except.error StakingError.InsufficientFunds ∧
    (withdraw pool150 7 0 LOCK_90_DAYS none (some (Except.ok 1))).2 =
      Except.error StakingError.InsufficientFunds := by
  decide

/-- C6: the per-stake slash share is computed as a non-widened u64
product: for a stake of `MAX_DEPOSIT` (10^11) e8s being the whole pool
and a requested slash of 2*10^8, the product wraps modulo 2^64 and
the stake is left with 99984467441 e8s, whereas the widened
floor(amount*total/total_staked) share would leave 99800000000 e8s. -/
theorem slash_share_product_overflows_u64 :
    stake_amount (slash_pool poolMax 9 200000000 3 (some (Except.ok 1))).1 7 0 =
      99984467441 ∧
    MAX_DEPOSIT - MAX_DEPOSIT * 200000000 / MAX_DEPOSIT = 99800000000 ∧
    stake_amount (slash_pool poolMax 9 200000000 3 (some (Except.ok 1))).1 7 0 ≠
      MAX_DEPOSIT - MAX_DEPOSIT * 200000000 / MAX_DEPOSIT := by
  decide

/-- C7: `deposit` marks the position active immediately (it consults no
balance oracle at all), while `confirm_deposit` never mutates the pool
(even on a failed balance query) and a second confirmation of an active
stake succeeds again instead of failing with an already-confirmed
error. -/
theorem deposit_activates_before_confirm :
    stake_active pool_after_deposit 7 0 = some true ∧
    (confirm_deposit pool_after_deposit 7 0 (some 100000)).1 = pool_after_deposit ∧
    (confirm_deposit pool_after_deposit 7 0 (some 100000)).2 =
      Except.ok { stake_id := 0, amount := 100000, unlock_time := 7777000 } ∧
    (confirm_deposit
        (confirm_deposit pool_after_deposit 7 0 (some 100000)).1 7 0 (some 100000)).2 =
      Except.ok { stake_id := 0, amount := 100000, unlock_time := 7777000 } ∧
    (confirm_deposit pool_after_deposit 7 0 none).1 = pool_after_deposit := by
  decide

-- A successful `transfer_icp` implies the ledger really replied with a
-- receipt, and the amount was strictly above the fee.
theorem transfer_icp_ok_elim (a : Nat) (reply : Option (Except TransferError Nat))
    (b : Nat) (h : transfer_icp a reply = .ok b) :
    reply = some (.ok b) ∧ TRANSFER_FEE < a := by
  unfold transfer_icp at h
  split at h
  · exact absurd h (by simp)
  · next hle =>
    cases reply with
    | none =>
      have h' : Except.error (TransferError.TxTooOld 0) = Except.ok b := h
      exact absurd h' (by simp)
    | some r =>
      have h' : r = Except.ok b := h
      exact ⟨by rw [h'], lt_of_not_le hle⟩

-- `withdraw` either leaves the pool untouched, or obtained a transfer
-- receipt and returned success.
theorem withdraw_cases (pool : StakingPool) (user stake_id current_time : Nat)
    (br : Option Nat) (tr : Option (Except TransferError Nat)) :
    (withdraw pool user stake_id current_time br tr).1 = pool ∨
    ∃ b ok, tr = some (.ok b) ∧
      (withdraw pool user stake_id current_time br tr).2 = .ok ok := by
  rcases hf : find_stake_by_id pool user stake_id with _ | ⟨i, st⟩
  · left
    simp [withdraw, hf]
  · cases hb : st.is_active with
    | false =>
      left
      simp [withdraw, hf, hb]
    | true =>
      by_cases hlt : current_time < st.unlock_time
      · left
        simp [withdraw, hf, hb, hlt]
      · by_cases hbal : get_balance br < st.amount
        · left
          simp [withdraw, hf, hb, hlt, hbal]
        · cases ht : transfer_icp (st.amount - TRANSFER_FEE) tr with
          | ok b =>
            right
            refine ⟨b, { transfer_amount := st.amount - TRANSFER_FEE,
                         stake_id := stake_id, block_index := b },
              (transfer_icp_ok_elim _ _ _ ht).1, ?_⟩
            simp [withdraw, hf, hb, hlt, hbal, ht]
          | error e =>
            left
            simp [withdraw, hf, hb, hlt, hbal, ht]

/-- C1: `withdraw` marks a position withdrawn only after a transfer
receipt was obtained from the ledger in that same call: (a) whenever it
returns `TransferFailed`, the pool (position record and aggregates) is
exactly the pre-call pool; (b) any pool mutation implies the transfer
reply was a receipt; (c) if the targeted position went from active to
inactive, the transfer reply was a receipt. -/
theorem withdraw_only_after_receipt (pool : StakingPool)
    (user stake_id current_time : Nat) (br : Option Nat)
    (tr : Option (Except TransferError Nat)) :
    (∀ e, (withdraw pool user stake_id current_time br tr).2 =
        .error (.TransferFailed e) →
        (withdraw pool user stake_id current_time br tr).1 = pool) ∧
    ((withdraw pool user stake_id current_time br tr).1 ≠ pool →
        ∃ b, tr = some (.ok b)) ∧
    (∀ i st i' st',
        find_stake_by_id pool user stake_id = some (i, st) →
        st.is_active = true →
        find_stake_by_id (withdraw pool user stake_id current_time br tr).1
            user stake_id = some (i', st') →
        st'.is_active = false →
        ∃ b, tr = some (.ok b)) := by
  have H := withdraw_cases pool user stake_id current_time br tr
  refine ⟨?_, ?_, ?_⟩
  · intro e he
    rcases H with h | ⟨b, ok, _, hok⟩
    · exact h
    · rw [hok] at he
      exact absurd he (by simp)
  · intro hne
    rcases H with h | ⟨b, _, hb, _⟩
    · exact absurd h hne
    · exact ⟨b, hb⟩
  · intro i st i' st' hf hact hf' hinact
    rcases H with h | ⟨b, _, hb, _⟩
    · rw [h] at hf'
      rw [hf] at hf'
      have hst : st = st' := (Prod.mk.injEq .. ▸ Option.some.inj hf').2
      rw [← hst, hact] at hinact
      exact absurd hinact (by simp)
    · exact ⟨b, hb⟩

/-- Witness for C1 at concrete inputs: a failed transfer leaves `pool150`
unchanged, and a completed withdrawal implies a receipt. -/
theorem withdraw_only_after_receipt_witness :
    (withdraw pool150 7 0 LOCK_90_DAYS (some 150000)
        (some (Except.error TransferError.Rejected))).1 = pool150 ∧
    (∃ b, (some (Except.ok 5) : Option (Except TransferError Nat)) =
        some (Except.ok b)) := by
  constructor
  · exact (withdraw_only_after_receipt pool150 7 0 LOCK_90_DAYS (some 150000)
      (some (Except.error TransferError.Rejected))).1 TransferError.Rejected
      (by decide)
  · exact (withdraw_only_after_receipt pool150 7 0 LOCK_90_DAYS (some 150000)
      (some (Except.ok 5))).2.2 0 stake150 0 { stake150 with is_active := false }
      (by decide) (by decide) (by decide) (by decide)

/-- C10: a successful `withdraw` of a position recorded at `a` e8s issues
a transfer of exactly `a - TRANSFER_FEE` (the fixed 10000-e8s fee), and
`transfer_icp` rejects any amount at or below the fee with a result that
is the same for every ledger reply, i.e. before the ledger call is
issued. -/
theorem withdraw_transfers_amount_minus_fee (pool : StakingPool)
    (user stake_id current_time : Nat) (br : Option Nat)
    (tr : Option (Except TransferError Nat)) :
    (∀ a reply, a ≤ TRANSFER_FEE →
        transfer_icp a reply = .error (.InsufficientFundsBal a)) ∧
    (∀ ok, (withdraw pool user stake_id current_time br tr).2 = .ok ok →
        ∃ i st, find_stake_by_id pool user stake_id = some (i, st) ∧
          ok.transfer_amount = st.amount - TRANSFER_FEE ∧
          TRANSFER_FEE < ok.transfer_amount) := by
  constructor
  · intro a reply ha
    unfold transfer_icp
    rw [if_pos ha]
  · intro ok hok
    unfold withdraw at hok
    rcases hf : find_stake_by_id pool user stake_id with _ | ⟨i, st⟩
    · rw [hf] at hok
      simp at hok
    · rw [hf] at hok
      cases hb : st.is_active with
      | false =>
        simp [withdraw, hb] at hok
      | true =>
        by_cases hlt : current_time < st.unlock_time
        · simp [withdraw, hb, hlt] at hok
        · by_cases hbal : get_balance br < st.amount
          · simp [withdraw, hb, hlt, hbal] at hok
          · cases ht : transfer_icp (st.amount - TRANSFER_FEE) tr with
            | ok b =>
              simp [withdraw, hb, hlt, hbal, ht] at hok
              refine ⟨i, st, rfl, ?_, ?_⟩
              · rw [← hok]
              · rw [← hok]
                exact (transfer_icp_ok_elim _ _ _ ht).2
            | error e =>
              simp [withdraw, hb, hlt, hbal, ht] at hok

/-- Witness for C10 at concrete inputs: an at-fee amount is rejected
independently of the ledger, and the successful withdrawal of the
150000-e8s stake pays out exactly 140000 e8s. -/
theorem withdraw_transfers_amount_minus_fee_witness :
    transfer_icp 5000 (some (Except.ok 9)) =
      Except.error (TransferError.InsufficientFundsBal 5000) ∧
    ∃ i st, find_stake_by_id pool150 7 0 = some (i, st) ∧
      (140000 : Nat) = st.amount - TRANSFER_FEE ∧ TRANSFER_FEE < 140000 := by
  constructor
  · exact (withdraw_transfers_amount_minus_fee pool150 7 0 0 none none).1 5000
      (some (Except.ok 9)) (by decide)
  · exact (withdraw_transfers_amount_minus_fee pool150 7 0 LOCK_90_DAYS
      (some 150000) (some (Except.ok 5))).2
      { transfer_amount := 140000, stake_id := 0, block_index := 5 } (by decide)

theorem wrap_sub_le (a b : Nat) (h : b ≤ a) : wrap_sub a b ≤ a := by
  unfold wrap_sub U64_LIMIT
  rcases le_or_lt (2 ^ 64) a with ha | ha
  · exact le_trans (le_of_lt (Nat.mod_lt _ (by norm_num))) ha
  · have hb : b % 2 ^ 64 = b := Nat.mod_eq_of_lt (lt_of_le_of_lt h ha)
    rw [hb]
    have h2 : a + 2 ^ 64 - b = 2 ^ 64 + (a - b) := by omega
    rw [h2, Nat.add_mod_left, Nat.mod_eq_of_lt (by omega : a - b < 2 ^ 64)]
    omega

-- The in-place slash of one stake leaves every other stake id untouched.
theorem slash_user_list_find_other (l : List Stake) (sid actual : Nat)
    (l' : List Stake) (h : slash_user_list l sid actual = some l') (i : Nat)
    (hi : i ≠ sid) : ∀ k, find_stake_aux l' i k = find_stake_aux l i k := by
  induction l generalizing l' with
  | nil => simp [slash_user_list] at h
  | cons s rest IH =>
    intro k
    by_cases hs : s.id = sid
    · simp only [slash_user_list, if_pos hs] at h
      rw [← Option.some.inj h]
      have hsi : ¬s.id = i := fun hh => hi (hh.symm.trans hs)
      simp only [find_stake_aux, if_neg hsi]
    · simp only [slash_user_list, if_neg hs] at h
      rcases Option.map_eq_some'.mp h with ⟨rest', hrest, hl'⟩
      rw [← hl']
      by_cases hsi : s.id = i
      · simp only [find_stake_aux, if_pos hsi]
      · simp only [find_stake_aux, if_neg hsi]
        exact IH rest' hrest (k + 1)

-- The in-place slash of one stake subtracts exactly `actual` (wrapping)
-- from the first stake carrying that id.
theorem slash_user_list_find_self (l : List Stake) (sid actual : Nat)
    (l' : List Stake) (h : slash_user_list l sid actual = some l') :
    ∀ k, ∃ j s, find_stake_aux l sid k = some (j, s) ∧
      found_amount (find_stake_aux l' sid k) = wrap_sub s.amount actual := by
  induction l generalizing l' with
  | nil => simp [slash_user_list] at h
  | cons s rest IH =>
    intro k
    by_cases hs : s.id = sid
    · simp only [slash_user_list, if_pos hs] at h
      rw [← Option.some.inj h]
      refine ⟨k, s, ?_, ?_⟩
      · simp only [find_stake_aux, if_pos hs]
      · simp only [find_stake_aux, if_pos hs, found_amount]
    · simp only [slash_user_list, if_neg hs] at h
      rcases Option.map_eq_some'.mp h with ⟨rest', hrest, hl'⟩
      rw [← hl']
      rcases IH rest' hrest (k + 1) with ⟨j, s0, hfind, hamt⟩
      refine ⟨j, s0, ?_, ?_⟩
      · simpa only [find_stake_aux, if_neg hs] using hfind
      · simpa only [find_stake_aux, if_neg hs] using hamt

-- The per-entry mutation of `slash_pool` touches exactly the targeted
-- user entry, applying `slash_user_list` to it.
theorem slash_pool_entry_spec (stakes : List (Principal × List Stake))
    (u sid actual : Nat) (stakes' : List (Principal × List Stake))
    (h : slash_pool_entry stakes u sid actual = some stakes') :
    (∀ u', u' ≠ u → stakes_lookup stakes' u' = stakes_lookup stakes u') ∧
    (∃ l l', stakes_lookup stakes u = some l ∧ stakes_lookup stakes' u = some l' ∧
      slash_user_list l sid actual = some l') := by
  induction stakes generalizing stakes' with
  | nil => simp [slash_pool_entry] at h
  | cons e rest IH =>
    by_cases he : e.1 = u
    · simp only [slash_pool_entry, if_pos he] at h
      cases hul : slash_user_list e.2 sid actual with
      | none =>
        rw [hul] at h
        exact absurd h (by simp)
      | some l =>
        rw [hul] at h
        rw [← Option.some.inj h]
        constructor
        · intro u' hu'
          have hne : ¬e.1 = u' := fun hh => hu' (hh.symm.trans he)
          simp only [stakes_lookup, if_neg hne]
        · refine ⟨e.2, l, ?_, ?_, hul⟩
          · simp only [stakes_lookup, if_pos he]
          · simp only [stakes_lookup, if_pos he]
    · simp only [slash_pool_entry, if_neg he] at h
      rcases Option.map_eq_some'.mp h with ⟨rest', hrest, hl'⟩
      rw [← hl']
      rcases IH rest' hrest with ⟨IH1, IH2⟩
      constructor
      · intro u' hu'
        by_cases heu : e.1 = u'
        · simp only [stakes_lookup, if_pos heu]
        · simp only [stakes_lookup, if_neg heu]
          exact IH1 u' hu'
      · rcases IH2 with ⟨l, l', hl, hl2, hul⟩
        exact ⟨l, l', by simpa only [stakes_lookup, if_neg he] using hl,
          by simpa only [stakes_lookup, if_neg he] using hl2, hul⟩

-- `stake_amount` is `stakes_amount` of the pool's stakes map.
theorem stake_amount_eq_stakes_amount (pool : StakingPool) (u i : Nat) :
    stake_amount pool u i = stakes_amount pool.stakes u i := rfl

-- equal lookups give equal observed amounts
theorem stakes_amount_congr (stakes stakes' : List (Principal × List Stake))
    (u i : Nat) (h : stakes_lookup stakes' u = stakes_lookup stakes u) :
    stakes_amount stakes' u i = stakes_amount stakes u i := by
  unfold stakes_amount
  rw [h]

-- One distribution-loop iteration leaves every other position unchanged.
theorem slash_step_other (A T : Nat) (acc : StakingPool × Nat × Nat)
    (entry : Principal × Stake) (u i : Nat)
    (hne : (u, i) ≠ (entry.1, entry.2.id)) :
    stake_amount (slash_step A T acc entry).1 u i = stake_amount acc.1 u i := by
  unfold slash_step
  dsimp only
  split
  · cases hse : slash_pool_entry acc.1.stakes entry.1 entry.2.id
        (min (wrap_mul entry.2.amount A / T) entry.2.amount) with
    | none => rfl
    | some stakes' =>
      have hC := slash_pool_entry_spec _ _ _ _ _ hse
      rw [stake_amount_eq_stakes_amount, stake_amount_eq_stakes_amount]
      show stakes_amount stakes' u i = stakes_amount acc.1.stakes u i
      by_cases hu : u = entry.1
      · have hi : i ≠ entry.2.id := by
          intro h
          exact hne (by rw [hu, h])
        rcases hC.2 with ⟨l, l', hl, hl', hul⟩
        unfold stakes_amount
        rw [hu, hl', hl]
        show found_amount (find_stake_aux l' i 0) = found_amount (find_stake_aux l i 0)
        rw [slash_user_list_find_other l entry.2.id _ l' hul i hi 0]
      · exact stakes_amount_congr _ _ u i (hC.1 u hu)
  · rfl

-- One distribution-loop iteration never raises the targeted position's
-- amount: the deduction is the clamp `min slash_amount stake.amount`.
theorem slash_step_self_le (A T : Nat) (acc : StakingPool × Nat × Nat)
    (entry : Principal × Stake)
    (hcur : stake_amount acc.1 entry.1 entry.2.id = entry.2.amount) :
    stake_amount (slash_step A T acc entry).1 entry.1 entry.2.id ≤
      stake_amount acc.1 entry.1 entry.2.id := by
  unfold slash_step
  dsimp only
  split
  · cases hse : slash_pool_entry acc.1.stakes entry.1 entry.2.id
        (min (wrap_mul entry.2.amount A / T) entry.2.amount) with
    | none => exact le_refl _
    | some stakes' =>
      rcases (slash_pool_entry_spec _ _ _ _ _ hse).2 with ⟨l, l', hl, hl', hul⟩
      rcases slash_user_list_find_self l entry.2.id _ l' hul 0 with ⟨j, s, hfind, hamt⟩
      have h1 : stake_amount acc.1 entry.1 entry.2.id = s.amount := by
        rw [stake_amount_eq_stakes_amount]
        unfold stakes_amount
        rw [hl]
        show found_amount (find_stake_aux l entry.2.id 0) = s.amount
        rw [hfind]
        rfl
      rw [stake_amount_eq_stakes_amount, stake_amount_eq_stakes_amount]
      show stakes_amount stakes' entry.1 entry.2.id ≤
        stakes_amount acc.1.stakes entry.1 entry.2.id
      have h2 : stakes_amount stakes' entry.1 entry.2.id = wrap_sub s.amount
          (min (wrap_mul entry.2.amount A / T) entry.2.amount) := by
        unfold stakes_amount
        rw [hl']
        exact hamt
      rw [h2, ← stake_amount_eq_stakes_amount, h1]
      exact wrap_sub_le _ _ (by rw [← h1, hcur]; exact min_le_right _ _)
  · exact le_refl _

-- Folding the distribution loop over a snapshot whose entries alias
-- pairwise-distinct stored positions never raises any position's amount.
theorem slash_loop_le (A T : Nat) (l : List (Principal × Stake)) :
    ∀ (acc : StakingPool × Nat × Nat) (orig : StakingPool),
    (∀ u i, stake_amount acc.1 u i ≤ stake_amount orig u i) →
    (∀ e ∈ l, stake_amount acc.1 e.1 e.2.id = e.2.amount) →
    l.Pairwise (fun a b => (a.1, a.2.id) ≠ (b.1, b.2.id)) →
    ∀ u i, stake_amount ((l.foldl (slash_step A T) acc)).1 u i ≤
      stake_amount orig u i := by
  induction l with
  | nil =>
    intro acc orig h1 _ _ u i
    exact h1 u i
  | cons e l IH =>
    intro acc orig h1 h2 hp u i
    rw [List.foldl_cons]
    rcases List.pairwise_cons.mp hp with ⟨hhead, htail⟩
    refine IH (slash_step A T acc e) orig ?_ ?_ htail u i
    · intro u' i'
      by_cases hne : (u', i') = (e.1, e.2.id)
      · have hu : u' = e.1 := (Prod.mk.injEq .. ▸ hne).1
        have hi : i' = e.2.id := (Prod.mk.injEq .. ▸ hne).2
        subst hu
        subst hi
        exact le_trans
          (slash_step_self_le A T acc e (h2 e (List.mem_cons_self e l)))
          (h1 e.1 e.2.id)
      · rw [slash_step_other A T acc e u' i' hne]
        exact h1 u' i'
    · intro e' he'
      have hne : (e'.1, e'.2.id) ≠ (e.1, e.2.id) := Ne.symm (hhead e' he')
      rw [slash_step_other A T acc e e'.1 e'.2.id hne]
      exact h2 e' (List.mem_cons_of_mem _ he')

/-- C9: for every requested slash amount (including amounts exceeding the
staked total), `slash_pool` never deducts more than a position's own
current amount: every position's recorded amount after the call is at
most its amount before the call (so the clamped subtraction cannot
underflow).  The two hypotheses say the snapshot is consistent: each
snapshot entry is the stored stake its (user, id) pair designates, and no
two snapshot entries alias the same stored position — both hold for every
state whose per-user stake ids are distinct. -/
theorem slash_pool_never_exceeds_position_amount (pool : StakingPool)
    (caller : Principal) (amount : Nat) (receiver : Principal)
    (tr : Option (Except TransferError Nat))
    (hsnap : ∀ e ∈ get_all_active_stakes pool,
      stake_amount pool e.1 e.2.id = e.2.amount)
    (hdis : (get_all_active_stakes pool).Pairwise
      (fun a b => (a.1, a.2.id) ≠ (b.1, b.2.id)))
    (u i : Nat) :
    stake_amount (slash_pool pool caller amount receiver tr).1 u i ≤
      stake_amount pool u i := by
  have hle := slash_loop_le amount (get_total_staked_amount pool)
    (get_all_active_stakes pool) (pool, 0, 0) pool
    (fun u i => le_refl _) hsnap hdis u i
  unfold slash_pool
  dsimp only
  split
  · exact le_refl _
  · split
    · exact le_refl _
    · split
      · exact le_refl _
      · split
        · split
          · exact hle
          · exact hle
        · exact hle

/-- Witness for C9: slashing `pool150` (one active 150000-e8s stake) by
100000 leaves the position's amount at most its previous amount. -/
theorem slash_pool_never_exceeds_position_amount_witness :
    stake_amount (slash_pool pool150 9 100000 3 (some (Except.ok 1))).1 7 0 ≤
      stake_amount pool150 7 0 :=
  slash_pool_never_exceeds_position_amount pool150 9 100000 3
    (some (Except.ok 1)) (by decide) (by decide) 7 0

end StakingPoolModel
